import Mathlib

/-!
Verification of the resource-identifier resolution engine of `rid2name.py`
(arscutils).  The Python source is shallowly embedded: byte strings become
`List Nat` (each element one byte), Python `dict`s built by insertion become
association lists whose lookup takes the latest binding, and every `raise`
site becomes a constructor of `ArscError` inside `Except`.
-/

set_option autoImplicit false

namespace Arscutils

/-- Error kinds, one per distinct `raise` / `IndexError` / `KeyError` site in
`rid2name.py`. -/
inductive ArscError where
  /-- raised by `Arsc._find_null_utf16` when no aligned double-NUL exists -/
  | nullTerminatorNotFound : ArscError
  /-- a `bytes.decode(...)` call raised `UnicodeDecodeError` -/
  | decodeError : ArscError
  /-- raised by `Arsc.pid_to_package` when no package has the given id -/
  | packageNotFound (pid : Nat) : ArscError
  /-- raised by `Arsc.get_package_type_keys` when `tid < 1` -/
  | invalidTypeId (tid : Nat) : ArscError
  /-- an `IndexError` from `pkg.types[i][0]` (index or empty group) -/
  | typeSpecIndexError : ArscError
  /-- a `KeyError` from `packages[pid]` in `rid_to_name` (unreachable) -/
  | packageKeyError (pid : Nat) : ArscError
  /-- a `KeyError` from `types[tid]` in `rid_to_name` -/
  | typeNotFound (tid : Nat) : ArscError
  /-- a `KeyError` from `keys[kid]` in `rid_to_name` -/
  | keyIndexOutOfRange (kid : Nat) : ArscError
deriving DecidableEq, Repr

/-! ### Data model (interface consumed from the external `arsc` decoder) -/

/-- Header of a type-spec record: only `entryCount` (an unsigned integer,
accessed in the source as `.entryCount.integer`) is consumed by the core. -/
structure ResTable_typeSpec_header where
  entryCount : Nat
deriving DecidableEq, Repr

/-- One type-spec record of a type group (`pkg.types[i][j]`). -/
structure ResTable_typeSpec where
  header : ResTable_typeSpec_header
deriving DecidableEq, Repr

/-- String-pool header: the core only reads `flags`. -/
structure ResStringPool_header where
  flags : Nat
deriving DecidableEq, Repr

/-- Modelled from the spec: `ResStringPool_header.Flags.UTF8_FLAG` of the
external `arsc` library (Android's `UTF8_FLAG = 1 << 8`); the core only
compares `header.flags` with it for equality. -/
def UTF8_FLAG : Nat := 256

/-- A string pool: declared flags plus the ordered raw entries. -/
structure ResStringPool where
  header : ResStringPool_header
  strings : List (List Nat)
deriving DecidableEq, Repr

/-- Package header: id (`.id.integer`) and the raw UTF-16 name buffer. -/
structure ResTable_package_header where
  id : Nat
  name : List Nat
deriving DecidableEq, Repr

/-- One package: header, type-name pool, key-name pool, and the ordered
type-spec groups (`pkg.types`). -/
structure ResTable_package where
  header : ResTable_package_header
  typeStrings : ResStringPool
  keyStrings : ResStringPool
  types : List (List ResTable_typeSpec)
deriving DecidableEq, Repr

/-- The decoded table: its ordered packages. -/
structure ResTable where
  packages : List ResTable_package
deriving DecidableEq, Repr

/-- The high-level handler class `Arsc`. -/
structure Arsc where
  arsc : ResTable
deriving DecidableEq, Repr

/-! ### Python dict semantics

The source builds `dict`s by repeated assignment `d[k] = v` and reads them
with `d[k]`.  We embed such a dict as the association list of assignments in
program order; a read takes the value of the *last* assignment to the key
(Python assignment overwrites). -/

/-- Reading `d[k]` on an embedded Python dict: value of the latest binding. -/
def pyDictGet (k : Nat) (d : List (Nat × String)) : Option String :=
  d.reverse.lookup k

/-! ### Text decoding (semantics of the `bytes.decode` calls)

`Char.ofNat` is applied only to scalar values that strict decoding can
produce, so no junk values arise. -/

/-- Is `b` a UTF-8 continuation byte (`0x80..0xBF`)? -/
def isCont (b : Nat) : Bool := 0x80 ≤ b && b ≤ 0xBF

/-- Strict UTF-8 decoding as performed by Python's `bytes.decode('utf-8')`:
rejects truncated sequences, overlong forms, surrogates and values above
`0x10FFFF`. -/
def utf8Decode : List Nat → Option (List Char)
  | [] => some []
  | b :: rest =>
    if b ≤ 0x7F then (utf8Decode rest).map (fun cs => Char.ofNat b :: cs)
    else if b < 0xC2 then none
    else if b ≤ 0xDF then
      match rest with
      | c1 :: r =>
        if isCont c1 then
          (utf8Decode r).map (fun cs =>
            Char.ofNat ((b - 0xC0) * 0x40 + (c1 - 0x80)) :: cs)
        else none
      | [] => none
    else if b ≤ 0xEF then
      match rest with
      | c1 :: c2 :: r =>
        if (if b = 0xE0 then 0xA0 else 0x80) ≤ c1 &&
            c1 ≤ (if b = 0xED then 0x9F else 0xBF) && isCont c2 then
          (utf8Decode r).map (fun cs =>
            Char.ofNat ((b - 0xE0) * 0x1000 + (c1 - 0x80) * 0x40 + (c2 - 0x80)) :: cs)
        else none
      | _ => none
    else if b ≤ 0xF4 then
      match rest with
      | c1 :: c2 :: c3 :: r =>
        if (if b = 0xF0 then 0x90 else 0x80) ≤ c1 &&
            c1 ≤ (if b = 0xF4 then 0x8F else 0xBF) && isCont c2 && isCont c3 then
          (utf8Decode r).map (fun cs =>
            Char.ofNat ((b - 0xF0) * 0x40000 + (c1 - 0x80) * 0x1000 +
              (c2 - 0x80) * 0x40 + (c3 - 0x80)) :: cs)
        else none
      | _ => none
    else none

/-- Pair bytes into 16-bit units, little-endian; fails on an odd byte count. -/
def bytesToUnitsLE : List Nat → Option (List Nat)
  | [] => some []
  | [_] => none
  | b0 :: b1 :: rest => (bytesToUnitsLE rest).map (fun us => (b0 + 256 * b1) :: us)

/-- Pair bytes into 16-bit units, big-endian; fails on an odd byte count. -/
def bytesToUnitsBE : List Nat → Option (List Nat)
  | [] => some []
  | [_] => none
  | b0 :: b1 :: rest => (bytesToUnitsBE rest).map (fun us => (256 * b0 + b1) :: us)

/-- Strict UTF-16 decoding of a list of 16-bit code units: surrogate pairs
combine, lone surrogates fail. -/
def utf16DecodeUnits : List Nat → Option (List Char)
  | [] => some []
  | u :: rest =>
    if u < 0xD800 || 0xDFFF < u then
      (utf16DecodeUnits rest).map (fun cs => Char.ofNat u :: cs)
    else if u ≤ 0xDBFF then
      match rest with
      | v :: rest2 =>
        if 0xDC00 ≤ v && v ≤ 0xDFFF then
          (utf16DecodeUnits rest2).map (fun cs =>
            Char.ofNat (0x10000 + (u - 0xD800) * 0x400 + (v - 0xDC00)) :: cs)
        else none
      | [] => none
    else none

/-- Pure little-endian UTF-16 decoding (no byte-order-mark handling); this is
the decoding the spec's words describe. -/
def utf16leDecode (b : List Nat) : Option (List Char) :=
  bytesToUnitsLE b >>= utf16DecodeUnits

/-- Semantics of Python's `bytes.decode('utf-16')` on a little-endian host:
an initial byte-order mark selects (and is consumed from) the byte order;
without one the data is decoded little-endian. -/
def pyUtf16Decode (b : List Nat) : Option (List Char) :=
  match b with
  | b0 :: b1 :: rest =>
    if b0 = 0xFF ∧ b1 = 0xFE then bytesToUnitsLE rest >>= utf16DecodeUnits
    else if b0 = 0xFE ∧ b1 = 0xFF then bytesToUnitsBE rest >>= utf16DecodeUnits
    else bytesToUnitsLE (b0 :: b1 :: rest) >>= utf16DecodeUnits
  | _ => bytesToUnitsLE b >>= utf16DecodeUnits

/-- Python's `str.strip('\0')`: remove NUL characters from both ends. -/
def stripNul (s : List Char) : List Char :=
  ((s.dropWhile (fun c => c = Char.ofNat 0)).reverse.dropWhile
    (fun c => c = Char.ofNat 0)).reverse

/-! ### The `Arsc` methods -/

namespace Arsc

/-- Embeds `Arsc._find_null_utf16`: index of the first two-byte NUL pair at an
even offset (`buf[i:i+2] == b'\0\0'`); `none` embeds the raised exception.
With fewer than two bytes left the slice is shorter than `b'\0\0'`, so the
loop falls through. -/
def find_null_utf16 : List Nat → Option Nat
  | b0 :: b1 :: rest =>
    if b0 = 0 ∧ b1 = 0 then some 0
    else (find_null_utf16 rest).map (fun i => i + 2)
  | _ => none

/-- Embeds `Arsc.utf16_to_str`: `buf[:find_null].decode('utf-16')`. -/
def utf16_to_str (buf : List Nat) : Except ArscError String :=
  match find_null_utf16 buf with
  | none => throw .nullTerminatorNotFound
  | some i =>
    match pyUtf16Decode (buf.take i) with
    | none => throw .decodeError
    | some cs => pure (String.mk cs)

/-- Embeds `Arsc.pid_to_package`: first package whose header id matches. -/
def pid_to_package (self : Arsc) (pid : Nat) : Except ArscError ResTable_package :=
  match self.arsc.packages.find? (fun pkg => pkg.header.id = pid) with
  | some pkg => pure pkg
  | none => throw (.packageNotFound pid)

/-- Loop body of `Arsc.get_packages`: decode every package name in order,
pairing it with the package id. -/
def get_packages_list : List ResTable_package → Except ArscError (List (Nat × String))
  | [] => pure []
  | pkg :: rest => do
    let name ← utf16_to_str pkg.header.name
    let tail ← get_packages_list rest
    pure ((pkg.header.id, name) :: tail)

/-- Embeds `Arsc.get_packages`: dict from package id to decoded name. -/
def get_packages (self : Arsc) : Except ArscError (List (Nat × String)) :=
  get_packages_list self.arsc.packages

/-- The pool-entry decoding appearing (twice, verbatim) in the source:
`t[2:-1].decode('utf-8').strip('\0')` under `UTF8_FLAG`, else
`t[2:-2].decode('utf-16').strip('\0')`. -/
def decodePoolString (flags : Nat) (t : List Nat) : Option String :=
  if flags = UTF8_FLAG then
    (utf8Decode ((t.drop 2).dropLast)).map (fun cs => String.mk (stripNul cs))
  else
    (pyUtf16Decode ((t.drop 2).dropLast.dropLast)).map (fun cs => String.mk (stripNul cs))

/-- Loop of `Arsc.get_package_types`: entry `i` (0-based, starting at `i0`)
becomes the binding `i + 1 ↦ decoded text`. -/
def build_types (flags : Nat) (i0 : Nat) :
    List (List Nat) → Except ArscError (List (Nat × String))
  | [] => pure []
  | t :: rest =>
    match decodePoolString flags t with
    | none => throw .decodeError
    | some s => (build_types flags (i0 + 1) rest).map (fun l => (i0 + 1, s) :: l)

/-- Embeds `Arsc.get_package_types`: dict from type id (1-based) to name. -/
def get_package_types (pkg : ResTable_package) : Except ArscError (List (Nat × String)) :=
  build_types pkg.typeStrings.header.flags 0 pkg.typeStrings.strings

/-- Embeds `pkg.types[i][0].header`: an `IndexError` arises if the group
index is out of range or the group is empty. -/
def groupPrimaryHeader (types : List (List ResTable_typeSpec)) (i : Nat) :
    Except ArscError ResTable_typeSpec_header :=
  match types[i]? with
  | none => throw .typeSpecIndexError
  | some g =>
    match g.head? with
    | none => throw .typeSpecIndexError
    | some ts => pure ts.header

/-- The `for i in range(n)` loop collecting `past_typeSecs`, in order. -/
def collectPast (types : List (List ResTable_typeSpec)) :
    Nat → Except ArscError (List ResTable_typeSpec_header)
  | 0 => pure []
  | n + 1 => do
    let past ← collectPast types n
    let h ← groupPrimaryHeader types n
    pure (past ++ [h])

/-- Lines 82–92 of the source: locate `this_typeSpec`, collect
`past_typeSecs`, and accumulate `first` and `last`. -/
def key_range (pkg : ResTable_package) (tid : Nat) : Except ArscError (Nat × Nat) := do
  let this_typeSpec ← groupPrimaryHeader pkg.types (tid - 1)
  let past ← collectPast pkg.types (tid - 1)
  let first := past.foldl (fun acc ts => acc + ts.entryCount) 0
  pure (first, first + this_typeSpec.entryCount)

/-- Loop of `Arsc.get_package_type_keys` over the slice: entry `i` (0-based,
from `i0`) becomes the binding `i ↦ decoded text`. -/
def build_keys (flags : Nat) (i0 : Nat) :
    List (List Nat) → Except ArscError (List (Nat × String))
  | [] => pure []
  | t :: rest =>
    match decodePoolString flags t with
    | none => throw .decodeError
    | some s => (build_keys flags (i0 + 1) rest).map (fun l => (i0, s) :: l)

/-- Embeds `Arsc.get_package_type_keys`: reject `tid < 1`, find the package, compute
the key range, slice the key pool (Python slicing clamps silently), and decode
each key in the slice. -/
def get_package_type_keys (self : Arsc) (pid tid : Nat) :
    Except ArscError (List (Nat × String)) := do
  if tid < 1 then throw (.invalidTypeId tid) else
  let pkg ← pid_to_package self pid
  let r ← key_range pkg tid
  let keylist := (pkg.keyStrings.strings.drop r.1).take (r.2 - r.1)
  build_keys pkg.keyStrings.header.flags 0 keylist

/-- Embeds `Arsc.rid_to_name`: the resolution orchestrator.  Dict reads in the final
tuple are evaluated left to right, exactly as in Python. -/
def rid_to_name (self : Arsc) (pid tid kid : Nat) :
    Except ArscError (String × String × String) := do
  let packages ← get_packages self
  let pkg ← pid_to_package self pid
  let types ← get_package_types pkg
  let keys ← get_package_type_keys self pid tid
  let pname ← match pyDictGet pid packages with
    | some s => pure s
    | none => throw (.packageKeyError pid)
  let tname ← match pyDictGet tid types with
    | some s => pure s
    | none => throw (.typeNotFound tid)
  let kname ← match pyDictGet kid keys with
    | some s => pure s
    | none => throw (.keyIndexOutOfRange kid)
  pure (pname, tname, kname)

end Arsc

/-- The identifier split of `main` (lines 125–127):
package id = bits 31–24, type id = bits 23–16, entry id = bits 15–0. -/
def decompose (rid : Nat) : Nat × Nat × Nat :=
  ((rid &&& 0xff000000) >>> 24, ((rid &&& 0xff0000) >>> 16, rid &&& 0xffff))

/-! ### Specification-side vocabulary used to state the claims -/

/-- Header of the primary (first) record of a type-spec group; a group is
never empty in a well-formed table. -/
def primHead (g : List ResTable_typeSpec) : ResTable_typeSpec_header :=
  match g.head? with
  | some ts => ts.header
  | none => { entryCount := 0 }

/-- Association list binding `i0 ↦ s0, i0+1 ↦ s1, …`; the shape of every dict
the loops of `get_package_types` / `get_package_type_keys` build. -/
def enumFrom : Nat → List String → List (Nat × String)
  | _, [] => []
  | i0, s :: ss => (i0, s) :: enumFrom (i0 + 1) ss

/-- There is a two-byte NUL pair at offset `j` of the buffer. -/
def alignedNulAt (buf : List Nat) (j : Nat) : Prop :=
  buf[j]? = some 0 ∧ buf[j + 1]? = some 0

/-- Did resolution fail with the `TypeNotFound` kind? -/
def errIsTypeNotFound (r : Except ArscError (String × String × String)) : Bool :=
  match r with
  | .error (.typeNotFound _) => true
  | _ => false

/-- Did resolution fail with the `PackageNotFound` kind? -/
def errIsPackageNotFound (r : Except ArscError (String × String × String)) : Bool :=
  match r with
  | .error (.packageNotFound _) => true
  | _ => false

/-! ### Concrete tables used by the end-to-end scenario, witnesses and
counterexamples -/

/-- Code points of an ASCII string, as bytes. -/
def strBytes (s : String) : List Nat := s.data.map Char.toNat

/-- A raw UTF-8 pool entry: two length bytes, the text, one trailing NUL. -/
def u8entry (s : String) : List Nat := [s.length, s.length] ++ strBytes s ++ [0]

/-- The package of the spec's end-to-end scenario: id `0x7f`, name "app",
types "string" (2 entries) and "drawable" (1 entry), key pool
`["app_name", "hello", "icon"]`. -/
def concretePkg : ResTable_package :=
  { header := { id := 0x7f, name := [0x61, 0, 0x70, 0, 0x70, 0, 0, 0] }
    typeStrings := { header := { flags := UTF8_FLAG }
                     strings := [u8entry "string", u8entry "drawable"] }
    keyStrings := { header := { flags := UTF8_FLAG }
                    strings := [u8entry "app_name", u8entry "hello", u8entry "icon"] }
    types := [[{ header := { entryCount := 2 } }], [{ header := { entryCount := 1 } }]] }

/-- The end-to-end scenario table. -/
def concreteArsc : Arsc := { arsc := { packages := [concretePkg] } }

/-- A table whose only package (id 1) has a name buffer with no aligned
double-NUL terminator. -/
def badNameArsc : Arsc :=
  { arsc := { packages := [
      { header := { id := 1, name := [0x61, 0x61] }
        typeStrings := { header := { flags := UTF8_FLAG }, strings := [] }
        keyStrings := { header := { flags := UTF8_FLAG }, strings := [] }
        types := [] }] } }

/-- A table whose only package declares `entryCount = 5` for its single type
while the key pool holds only 3 entries, so the computed range `[0, 5)`
overruns the pool. -/
def overArsc : Arsc :=
  { arsc := { packages := [
      { header := { id := 2, name := [0x61, 0, 0, 0] }
        typeStrings := { header := { flags := UTF8_FLAG }
                         strings := [u8entry "string"] }
        keyStrings := { header := { flags := UTF8_FLAG }
                        strings := [u8entry "a", u8entry "b", u8entry "c"] }
        types := [[{ header := { entryCount := 5 } }]] }] } }

/-- A raw pool entry whose payload starts with a big-endian byte-order mark:
envelope `[0, 0]`, payload `FE FF 00 61`, trailing `[0, 0]`. -/
def bomEntry : List Nat := [0, 0, 0xFE, 0xFF, 0x00, 0x61, 0, 0]

/-! ### Helper lemmas: the `Except` monad -/

@[simp]
theorem okBind {α β : Type} (a : α) (f : α → Except ArscError β) :
    (Except.ok a : Except ArscError α) >>= f = f a := rfl

@[simp]
theorem errorBind {α β : Type} (e : ArscError) (f : α → Except ArscError β) :
    (Except.error e : Except ArscError α) >>= f = Except.error e := rfl

@[simp]
theorem okExceptMap {α β : Type} (a : α) (f : α → β) :
    Except.map f (Except.ok a : Except ArscError α) = Except.ok (f a) := rfl

@[simp]
theorem errorExceptMap {α β : Type} (e : ArscError) (f : α → β) :
    Except.map f (Except.error e : Except ArscError α) = Except.error e := rfl

@[simp]
theorem throwEq {α : Type} (e : ArscError) :
    (throw e : Except ArscError α) = Except.error e := rfl

@[simp]
theorem pureEq {α : Type} (a : α) :
    (pure a : Except ArscError α) = Except.ok a := rfl

/-! ### Helper lemmas: Python dict lookup on `enumFrom` lists -/

theorem lookup_append_some (l1 l2 : List (Nat × String)) (k : Nat) (v : String)
    (h : l1.lookup k = some v) : (l1 ++ l2).lookup k = some v := by
  induction l1 with
  | nil => simp [List.lookup] at h
  | cons p l ih =>
    rcases p with ⟨a, b⟩
    simp only [List.lookup, List.cons_append] at h ⊢
    by_cases hk : k = a
    · simpa [hk] using h
    · have hba : (k == a) = false := by simpa using hk
      rw [hba] at h ⊢
      exact ih h

theorem lookup_append_none (l1 l2 : List (Nat × String)) (k : Nat)
    (h : l1.lookup k = none) : (l1 ++ l2).lookup k = l2.lookup k := by
  induction l1 with
  | nil => simp
  | cons p l ih =>
    rcases p with ⟨a, b⟩
    simp only [List.lookup, List.cons_append] at h ⊢
    by_cases hk : k = a
    · simp [hk] at h
    · have hba : (k == a) = false := by simpa using hk
      rw [hba] at h ⊢
      exact ih h

theorem pyDictGet_enumFrom (ss : List String) : ∀ (i0 k : Nat),
    pyDictGet k (enumFrom i0 ss) = if i0 ≤ k then ss[k - i0]? else none := by
  induction ss with
  | nil =>
    intro i0 k
    simp [pyDictGet, enumFrom, List.lookup]
  | cons s ss ih =>
    intro i0 k
    have h2 : (enumFrom (i0 + 1) ss).reverse.lookup k =
        if i0 + 1 ≤ k then ss[k - (i0 + 1)]? else none := ih (i0 + 1) k
    simp only [enumFrom, pyDictGet, List.reverse_cons]
    by_cases hk : i0 + 1 ≤ k
    · rw [if_pos hk] at h2
      rcases hgt : ss[k - (i0 + 1)]? with _ | v
      · rw [hgt] at h2
        rw [lookup_append_none _ _ _ h2]
        have hne : (k == i0) = false := by simp; omega
        have hki : k - i0 = (k - (i0 + 1)) + 1 := by omega
        simp [List.lookup, hne, if_pos (by omega : i0 ≤ k), hki, hgt]
      · rw [hgt] at h2
        rw [lookup_append_some _ _ _ _ h2]
        have hki : k - i0 = (k - (i0 + 1)) + 1 := by omega
        simp [if_pos (by omega : i0 ≤ k), hki, hgt]
    · by_cases hk0 : k = i0
      · subst hk0
        have h2n : (enumFrom (k + 1) ss).reverse.lookup k = none := by
          rw [h2, if_neg hk]
        rw [lookup_append_none _ _ _ h2n]
        simp [List.lookup]
      · have h2n : (enumFrom (i0 + 1) ss).reverse.lookup k = none := by
          rw [h2, if_neg hk]
        rw [lookup_append_none _ _ _ h2n]
        have hne : (k == i0) = false := by simpa using hk0
        simp [List.lookup, hne, if_neg (by omega : ¬ i0 ≤ k)]

theorem enumFrom_map_fst (ss : List String) : ∀ i0 : Nat,
    (enumFrom i0 ss).map Prod.fst = (List.range ss.length).map (fun j => i0 + j) := by
  induction ss with
  | nil => intro i0; simp [enumFrom]
  | cons s ss ih =>
    intro i0
    simp only [enumFrom, List.map_cons, List.length_cons, List.range_succ_eq_map,
      List.map_map, ih (i0 + 1)]
    simp only [Nat.add_zero]
    congr 1
    apply List.map_congr_left
    intro a _
    simp only [Function.comp_apply]
    omega

theorem enumFrom_length (ss : List String) : ∀ i0 : Nat,
    (enumFrom i0 ss).length = ss.length := by
  induction ss with
  | nil => intro i0; simp [enumFrom]
  | cons s ss ih => intro i0; simp [enumFrom, ih (i0 + 1)]

/-! ### Helper lemmas: the decoding loops -/

theorem build_keys_eq (flags : Nat) (l : List (List Nat)) : ∀ (i0 : Nat) (ss : List String),
    l.map (Arsc.decodePoolString flags) = ss.map some →
    Arsc.build_keys flags i0 l = .ok (enumFrom i0 ss) := by
  induction l with
  | nil =>
    intro i0 ss h
    rcases ss with _ | ⟨s, ss⟩
    · simp [Arsc.build_keys, enumFrom]
    · simp at h
  | cons t rest ih =>
    intro i0 ss h
    rcases ss with _ | ⟨s, ss⟩
    · simp at h
    · simp only [List.map_cons, List.cons.injEq] at h
      simp [Arsc.build_keys, h.1, ih (i0 + 1) ss h.2, enumFrom]

theorem build_types_eq (flags : Nat) (l : List (List Nat)) : ∀ (i0 : Nat) (ss : List String),
    l.map (Arsc.decodePoolString flags) = ss.map some →
    Arsc.build_types flags i0 l = .ok (enumFrom (i0 + 1) ss) := by
  induction l with
  | nil =>
    intro i0 ss h
    rcases ss with _ | ⟨s, ss⟩
    · simp [Arsc.build_types, enumFrom]
    · simp at h
  | cons t rest ih =>
    intro i0 ss h
    rcases ss with _ | ⟨s, ss⟩
    · simp at h
    · simp only [List.map_cons, List.cons.injEq] at h
      simp [Arsc.build_types, h.1, ih (i0 + 1) ss h.2, enumFrom]

theorem build_types_inv (flags : Nat) (l : List (List Nat)) :
    ∀ (i0 : Nat) (T : List (Nat × String)),
    Arsc.build_types flags i0 l = .ok T →
    ∃ ss : List String,
      l.map (Arsc.decodePoolString flags) = ss.map some ∧ T = enumFrom (i0 + 1) ss := by
  induction l with
  | nil =>
    intro i0 T h
    refine ⟨[], by simp, ?_⟩
    simp only [Arsc.build_types, pureEq, Except.ok.injEq] at h
    simp [← h, enumFrom]
  | cons t rest ih =>
    intro i0 T h
    simp only [Arsc.build_types] at h
    rcases hd : Arsc.decodePoolString flags t with _ | s
    · rw [hd] at h; simp at h
    · rw [hd] at h
      rcases hb : Arsc.build_types flags (i0 + 1) rest with e | T'
      · rw [hb] at h; simp at h
      · rw [hb] at h
        simp only [okExceptMap, Except.ok.injEq] at h
        rcases ih (i0 + 1) T' hb with ⟨ss, hss, hT'⟩
        exact ⟨s :: ss, by simp [hd, hss], by simp [← h, hT', enumFrom]⟩

/-! ### Helper lemmas: packages -/

theorem get_packages_list_ids (l : List ResTable_package) :
    ∀ P : List (Nat × String), Arsc.get_packages_list l = .ok P →
    P.map Prod.fst = l.map (fun pkg => pkg.header.id) := by
  induction l with
  | nil =>
    intro P h
    simp only [Arsc.get_packages_list, pureEq, Except.ok.injEq] at h
    simp [← h]
  | cons pkg rest ih =>
    intro P h
    simp only [Arsc.get_packages_list] at h
    rcases hn : Arsc.utf16_to_str pkg.header.name with e | name
    · rw [hn] at h; simp at h
    · rw [hn] at h
      rcases ht : Arsc.get_packages_list rest with e | tail
      · rw [ht] at h; simp at h
      · rw [ht] at h
        simp only [okBind, pureEq, Except.ok.injEq] at h
        simp [← h, ih tail ht]

theorem lookup_of_mem_fst (d : List (Nat × String)) (k : Nat) :
    k ∈ d.map Prod.fst → ∃ v, d.lookup k = some v := by
  induction d with
  | nil => simp
  | cons p rest ih =>
    rcases p with ⟨a, b⟩
    intro h
    by_cases hk : k = a
    · exact ⟨b, by simp [List.lookup, hk]⟩
    · have : k ∈ rest.map Prod.fst := by
        simpa [hk] using h
      rcases ih this with ⟨v, hv⟩
      have hba : (k == a) = false := by simpa using hk
      exact ⟨v, by simp [List.lookup, hba, hv]⟩

theorem pyDictGet_of_mem_fst (d : List (Nat × String)) (k : Nat)
    (h : k ∈ d.map Prod.fst) : ∃ v, pyDictGet k d = some v := by
  apply lookup_of_mem_fst
  simpa using h

/-- When the package id is present, `pid_to_package` succeeds, the found
package is a member, and its id matches. -/
theorem pid_to_package_ok (self : Arsc) (pid : Nat) (pkg : ResTable_package)
    (h : Arsc.pid_to_package self pid = .ok pkg) :
    pkg ∈ self.arsc.packages ∧ pkg.header.id = pid := by
  simp only [Arsc.pid_to_package] at h
  rcases hf : self.arsc.packages.find? (fun p => p.header.id = pid) with _ | q
  · rw [hf] at h; simp at h
  · rw [hf] at h
    simp only [pureEq, Except.ok.injEq] at h
    subst h
    refine ⟨List.mem_of_find?_eq_some hf, ?_⟩
    have := List.find?_some hf
    simpa using this

/-! ### Helper lemmas: the key-range computation -/

theorem groupPrimaryHeader_ok (types : List (List ResTable_typeSpec)) (i : Nat)
    (g : List ResTable_typeSpec) (hi : types[i]? = some g) (hne : g ≠ []) :
    Arsc.groupPrimaryHeader types i = .ok (primHead g) := by
  simp only [Arsc.groupPrimaryHeader, hi]
  rcases g with _ | ⟨ts, rest⟩
  · exact absurd rfl hne
  · simp [primHead]

theorem groupPrimaryHeader_err (types : List (List ResTable_typeSpec)) (i : Nat)
    (hi : types.length ≤ i) :
    Arsc.groupPrimaryHeader types i = .error .typeSpecIndexError := by
  simp only [Arsc.groupPrimaryHeader]
  rw [List.getElem?_eq_none hi]
  rfl

theorem collectPast_ok (types : List (List ResTable_typeSpec)) : ∀ n, n ≤ types.length →
    (∀ i, i < n → types.getD i [] ≠ []) →
    Arsc.collectPast types n = .ok ((types.take n).map primHead) := by
  intro n
  induction n with
  | zero => intro _ _; simp [Arsc.collectPast]
  | succ n ih =>
    intro hlen hne
    have hcp := ih (by omega) (fun i hi => hne i (by omega))
    have hn : types[n]? = some types[n] := List.getElem?_eq_getElem (by omega)
    have hgne : types[n] ≠ [] := by
      have := hne n (by omega)
      rwa [List.getD_eq_getElem?_getD, hn, Option.getD_some] at this
    simp only [Arsc.collectPast, hcp, okBind,
      groupPrimaryHeader_ok types n _ hn hgne, pureEq]
    have ht : types.take (n + 1) = types.take n ++ [types[n]] := by
      rw [List.take_succ, hn]
      rfl
    rw [ht, List.map_append, List.map_cons, List.map_nil]

theorem foldl_entryCount (l : List ResTable_typeSpec_header) : ∀ acc : Nat,
    l.foldl (fun a ts => a + ts.entryCount) acc
      = acc + (l.map (fun ts => ts.entryCount)).sum := by
  induction l with
  | nil => intro acc; simp
  | cons h t ih =>
    intro acc
    simp only [List.foldl_cons, List.map_cons, List.sum_cons, ih (acc + h.entryCount)]
    omega

theorem key_range_ok (pkg : ResTable_package) (tid : Nat)
    (h1 : 1 ≤ tid) (h2 : tid ≤ pkg.types.length)
    (hne : ∀ i, i < tid → pkg.types.getD i [] ≠ []) :
    Arsc.key_range pkg tid =
      .ok (((pkg.types.take (tid - 1)).map (fun g => (primHead g).entryCount)).sum,
        ((pkg.types.take (tid - 1)).map (fun g => (primHead g).entryCount)).sum
          + (primHead (pkg.types.getD (tid - 1) [])).entryCount) := by
  have hidx : pkg.types[tid - 1]? = some pkg.types[tid - 1] :=
    List.getElem?_eq_getElem (by omega)
  have hgd : pkg.types.getD (tid - 1) [] = pkg.types[tid - 1] := by
    rw [List.getD_eq_getElem?_getD, hidx, Option.getD_some]
  have hgne : pkg.types[tid - 1] ≠ [] := by
    have := hne (tid - 1) (by omega)
    rwa [hgd] at this
  have hcp := collectPast_ok pkg.types (tid - 1) (by omega)
    (fun i hi => hne i (by omega))
  simp only [Arsc.key_range, groupPrimaryHeader_ok pkg.types (tid - 1) _ hidx hgne,
    okBind, hcp, pureEq, hgd]
  rw [foldl_entryCount]
  simp [List.map_map, Function.comp_def]

theorem key_range_le (pkg : ResTable_package) (tid first last : Nat)
    (h : Arsc.key_range pkg tid = .ok (first, last)) : first ≤ last := by
  simp only [Arsc.key_range] at h
  rcases hg : Arsc.groupPrimaryHeader pkg.types (tid - 1) with e | ts
  · rw [hg] at h; simp at h
  · rw [hg] at h
    rcases hc : Arsc.collectPast pkg.types (tid - 1) with e | past
    · rw [hc] at h; simp at h
    · rw [hc] at h
      simp only [okBind, pureEq, Except.ok.injEq, Prod.mk.injEq] at h
      omega

theorem key_range_err_of_gt (pkg : ResTable_package) (tid : Nat)
    (h : pkg.types.length < tid) :
    Arsc.key_range pkg tid = .error .typeSpecIndexError := by
  simp only [Arsc.key_range, groupPrimaryHeader_err pkg.types (tid - 1) (by omega),
    errorBind]

theorem get_package_type_keys_eq (self : Arsc) (pid tid : Nat) (pkg : ResTable_package)
    (first last : Nat) (ss : List String)
    (h1 : 1 ≤ tid)
    (hpkg : Arsc.pid_to_package self pid = .ok pkg)
    (hr : Arsc.key_range pkg tid = .ok (first, last))
    (hs : ((pkg.keyStrings.strings.drop first).take (last - first)).map
        (Arsc.decodePoolString pkg.keyStrings.header.flags) = ss.map some) :
    Arsc.get_package_type_keys self pid tid = .ok (enumFrom 0 ss) := by
  simp only [Arsc.get_package_type_keys]
  rw [if_neg (by omega)]
  simp only [hpkg, okBind, hr]
  exact build_keys_eq _ _ 0 ss hs

theorem get_package_type_keys_err_of_gt (self : Arsc) (pid tid : Nat)
    (pkg : ResTable_package)
    (hpkg : Arsc.pid_to_package self pid = .ok pkg)
    (h : pkg.types.length < tid) :
    Arsc.get_package_type_keys self pid tid = .error .typeSpecIndexError := by
  simp only [Arsc.get_package_type_keys]
  rw [if_neg (by omega)]
  simp only [hpkg, okBind, key_range_err_of_gt pkg tid h, errorBind]

/-! ### Helper lemmas: NUL-terminator search and byte pairing -/

theorem getElem?_cons_cons {α : Type} (l : List α) (a b : α) (j : Nat) :
    (a :: b :: l)[j + 2]? = l[j]? := by
  rw [show j + 2 = (j + 1) + 1 by omega, List.getElem?_cons_succ,
    List.getElem?_cons_succ]

theorem alignedNulAt_cons_cons (b0 b1 : Nat) (rest : List Nat) (j : Nat) :
    alignedNulAt (b0 :: b1 :: rest) (j + 2) ↔ alignedNulAt rest j := by
  unfold alignedNulAt
  rw [getElem?_cons_cons, show j + 2 + 1 = (j + 1) + 2 by omega, getElem?_cons_cons]

theorem alignedNulAt_zero (b0 b1 : Nat) (rest : List Nat) :
    alignedNulAt (b0 :: b1 :: rest) 0 ↔ b0 = 0 ∧ b1 = 0 := by
  simp [alignedNulAt]

theorem find_null_sound : ∀ (buf : List Nat) (i : Nat),
    Arsc.find_null_utf16 buf = some i → 2 ∣ i ∧ alignedNulAt buf i
  | [], _ => by simp [Arsc.find_null_utf16]
  | [_], _ => by simp [Arsc.find_null_utf16]
  | b0 :: b1 :: rest, i => by
    intro h
    simp only [Arsc.find_null_utf16] at h
    by_cases hz : b0 = 0 ∧ b1 = 0
    · rw [if_pos hz] at h
      have hi : i = 0 := by simpa using h.symm
      subst hi
      exact ⟨⟨0, rfl⟩, (alignedNulAt_zero b0 b1 rest).mpr hz⟩
    · rw [if_neg hz] at h
      rcases Option.map_eq_some'.mp h with ⟨j, hj, hji⟩
      rcases find_null_sound rest j hj with ⟨hd, hnul⟩
      subst hji
      exact ⟨by omega, (alignedNulAt_cons_cons b0 b1 rest j).mpr hnul⟩

theorem find_null_first : ∀ (buf : List Nat) (i : Nat),
    Arsc.find_null_utf16 buf = some i →
    ∀ j, 2 ∣ j → j < i → ¬ alignedNulAt buf j
  | [], _ => by simp [Arsc.find_null_utf16]
  | [_], _ => by simp [Arsc.find_null_utf16]
  | b0 :: b1 :: rest, i => by
    intro h j hdvd hji
    simp only [Arsc.find_null_utf16] at h
    by_cases hz : b0 = 0 ∧ b1 = 0
    · rw [if_pos hz] at h
      have hi : i = 0 := by simpa using h.symm
      omega
    · rw [if_neg hz] at h
      rcases Option.map_eq_some'.mp h with ⟨i', hi', hii⟩
      rcases Nat.eq_zero_or_pos j with hj0 | hjpos
      · subst hj0
        rw [alignedNulAt_zero]
        exact hz
      · have hj2 : 2 ≤ j := by omega
        have hj : j = (j - 2) + 2 := by omega
        rw [hj, alignedNulAt_cons_cons]
        exact find_null_first rest i' hi' (j - 2) (by omega) (by omega)

theorem find_null_none : ∀ buf : List Nat,
    (∀ j, 2 ∣ j → ¬ alignedNulAt buf j) → Arsc.find_null_utf16 buf = none
  | [] => fun _ => rfl
  | [_] => fun _ => rfl
  | b0 :: b1 :: rest => by
    intro h
    have hz : ¬ (b0 = 0 ∧ b1 = 0) := by
      rw [← alignedNulAt_zero b0 b1 rest]
      exact h 0 ⟨0, rfl⟩
    have hrest : ∀ j, 2 ∣ j → ¬ alignedNulAt rest j := by
      intro j hj
      rw [← alignedNulAt_cons_cons b0 b1 rest j]
      exact h (j + 2) (by omega)
    simp only [Arsc.find_null_utf16, if_neg hz, find_null_none rest hrest,
      Option.map_none']

theorem bytesToUnitsLE_odd : ∀ l : List Nat, ¬ 2 ∣ l.length → bytesToUnitsLE l = none
  | [] => by intro h; simp at h
  | [_] => fun _ => rfl
  | b0 :: b1 :: rest => by
    intro h
    have hrest : ¬ 2 ∣ rest.length := by
      simp only [List.length_cons] at h
      omega
    simp [bytesToUnitsLE, bytesToUnitsLE_odd rest hrest]

theorem bytesToUnitsBE_odd : ∀ l : List Nat, ¬ 2 ∣ l.length → bytesToUnitsBE l = none
  | [] => by intro h; simp at h
  | [_] => fun _ => rfl
  | b0 :: b1 :: rest => by
    intro h
    have hrest : ¬ 2 ∣ rest.length := by
      simp only [List.length_cons] at h
      omega
    simp [bytesToUnitsBE, bytesToUnitsBE_odd rest hrest]

theorem pyUtf16Decode_odd (l : List Nat) (h : ¬ 2 ∣ l.length) : pyUtf16Decode l = none := by
  rcases l with _ | ⟨b0, _ | ⟨b1, rest⟩⟩
  · simp at h
  · rfl
  · have hlen : ¬ 2 ∣ rest.length := by
      simp only [List.length_cons] at h
      omega
    simp only [pyUtf16Decode]
    by_cases h1 : b0 = 0xFF ∧ b1 = 0xFE
    · rw [if_pos h1, bytesToUnitsLE_odd rest hlen]
      rfl
    · rw [if_neg h1]
      by_cases h2 : b0 = 0xFE ∧ b1 = 0xFF
      · rw [if_pos h2, bytesToUnitsBE_odd rest hlen]
        rfl
      · rw [if_neg h2, bytesToUnitsLE_odd (b0 :: b1 :: rest) (by simpa using h)]
        rfl

/-! ### Helper lemmas: the slicing of pool entries -/

theorem dropLast_drop_two (t : List Nat) :
    (t.drop 2).dropLast = (t.take (t.length - 1)).drop 2 := by
  by_cases h3 : 3 ≤ t.length
  · rw [List.dropLast_eq_take, List.length_drop, List.take_drop]
    congr 2
    omega
  · have h1 : t.drop 2 = [] := List.drop_eq_nil_of_le (by omega)
    have h2 : (t.take (t.length - 1)).drop 2 = [] :=
      List.drop_eq_nil_of_le (by rw [List.length_take]; omega)
    rw [h1, h2]
    rfl

theorem dropLast_two_drop_two (t : List Nat) :
    (t.drop 2).dropLast.dropLast = (t.take (t.length - 2)).drop 2 := by
  rw [dropLast_drop_two t, dropLast_drop_two (t.take (t.length - 1)), List.take_take,
    List.length_take]
  congr 2
  omega

/-! ### Helper lemmas: the resolution orchestrator -/

theorem pid_to_package_absent (self : Arsc) (pid : Nat)
    (h : ∀ pkg ∈ self.arsc.packages, pkg.header.id ≠ pid) :
    Arsc.pid_to_package self pid = .error (.packageNotFound pid) := by
  have hf : self.arsc.packages.find? (fun p => p.header.id = pid) = none :=
    List.find?_eq_none.mpr (fun pkg hmem => by simpa using h pkg hmem)
  simp [Arsc.pid_to_package, hf]

theorem rid_to_name_packages_err (self : Arsc) (pid tid kid : Nat) (e : ArscError)
    (hP : Arsc.get_packages self = .error e) :
    Arsc.rid_to_name self pid tid kid = .error e := by
  simp only [Arsc.rid_to_name, hP, errorBind]

theorem rid_to_name_pkg_err (self : Arsc) (pid tid kid : Nat)
    (P : List (Nat × String)) (e : ArscError)
    (hP : Arsc.get_packages self = .ok P)
    (hpkg : Arsc.pid_to_package self pid = .error e) :
    Arsc.rid_to_name self pid tid kid = .error e := by
  simp only [Arsc.rid_to_name, hP, okBind, hpkg, errorBind]

theorem rid_to_name_keys_err (self : Arsc) (pid tid kid : Nat)
    (pkg : ResTable_package) (P T : List (Nat × String)) (e : ArscError)
    (hP : Arsc.get_packages self = .ok P)
    (hpkg : Arsc.pid_to_package self pid = .ok pkg)
    (hT : Arsc.get_package_types pkg = .ok T)
    (hK : Arsc.get_package_type_keys self pid tid = .error e) :
    Arsc.rid_to_name self pid tid kid = .error e := by
  simp only [Arsc.rid_to_name, hP, okBind, hpkg, hT, hK, errorBind]

theorem rid_to_name_eq (self : Arsc) (pid tid kid : Nat)
    (pkg : ResTable_package) (P T K : List (Nat × String)) (pname tname : String)
    (hP : Arsc.get_packages self = .ok P)
    (hpkg : Arsc.pid_to_package self pid = .ok pkg)
    (hT : Arsc.get_package_types pkg = .ok T)
    (hK : Arsc.get_package_type_keys self pid tid = .ok K)
    (hpn : pyDictGet pid P = some pname)
    (htn : pyDictGet tid T = some tname) :
    Arsc.rid_to_name self pid tid kid =
      match pyDictGet kid K with
      | some kname => .ok (pname, tname, kname)
      | none => .error (.keyIndexOutOfRange kid) := by
  simp only [Arsc.rid_to_name, hP, okBind, hpkg, hT, hK, hpn, htn]
  rcases hkn : pyDictGet kid K with _ | kname
  · simp
  · simp

theorem rid_to_name_type_err (self : Arsc) (pid tid kid : Nat)
    (pkg : ResTable_package) (P T K : List (Nat × String)) (pname : String)
    (hP : Arsc.get_packages self = .ok P)
    (hpkg : Arsc.pid_to_package self pid = .ok pkg)
    (hT : Arsc.get_package_types pkg = .ok T)
    (hK : Arsc.get_package_type_keys self pid tid = .ok K)
    (hpn : pyDictGet pid P = some pname)
    (htn : pyDictGet tid T = none) :
    Arsc.rid_to_name self pid tid kid = .error (.typeNotFound tid) := by
  simp only [Arsc.rid_to_name, hP, okBind, hpkg, hT, hK, hpn, htn]
  simp

/-- On success, `pid_to_package` guarantees the id appears in the dict that
`get_packages` builds. -/
theorem pyDictGet_pid (self : Arsc) (pid : Nat) (pkg : ResTable_package)
    (P : List (Nat × String))
    (hP : Arsc.get_packages self = .ok P)
    (hpkg : Arsc.pid_to_package self pid = .ok pkg) :
    ∃ pname, pyDictGet pid P = some pname := by
  rcases pid_to_package_ok self pid pkg hpkg with ⟨hmem, hid⟩
  apply pyDictGet_of_mem_fst
  rw [get_packages_list_ids self.arsc.packages P hP]
  exact List.mem_map.mpr ⟨pkg, hmem, hid⟩

theorem get_packages_list_err (l : List ResTable_package) :
    (∃ pkg ∈ l, Arsc.find_null_utf16 pkg.header.name = none) →
    ∃ e, Arsc.get_packages_list l = .error e := by
  induction l with
  | nil => simp
  | cons pkg rest ih =>
    rintro ⟨q, hq, hnone⟩
    rcases hn : Arsc.utf16_to_str pkg.header.name with e | name
    · exact ⟨e, by simp only [Arsc.get_packages_list, hn, errorBind]⟩
    · rcases List.mem_cons.mp hq with h1 | h2
      · subst h1
        simp only [Arsc.utf16_to_str, hnone, throwEq] at hn
        exact Except.noConfusion hn
      · rcases ih ⟨q, h2, hnone⟩ with ⟨e, he⟩
        refine ⟨e, ?_⟩
        simp only [Arsc.get_packages_list, hn, okBind, he, errorBind]

/-! ### The claims -/

/-- C1: for every package and every type id `tid` with `1 ≤ tid ≤` the
number of type-spec groups (each group having a primary record), the range
computed by the lines 82–92 of `get_package_type_keys` (embedded as
`key_range`) has `first` equal to the sum of the primary records'
`entryCount` over the groups for type ids `1 .. tid-1` in ascending order and
`last = first + entryCount` of the primary record of group `tid`; in
particular `tid = 1` yields `first = 0`. -/
theorem claim_C1 (pkg : ResTable_package) (tid : Nat)
    (h1 : 1 ≤ tid) (h2 : tid ≤ pkg.types.length)
    (hne : ∀ i, i < tid → pkg.types.getD i [] ≠ []) :
    Arsc.key_range pkg tid =
      .ok (((pkg.types.take (tid - 1)).map (fun g => (primHead g).entryCount)).sum,
        ((pkg.types.take (tid - 1)).map (fun g => (primHead g).entryCount)).sum
          + (primHead (pkg.types.getD (tid - 1) [])).entryCount)
    ∧ (tid = 1 →
      ((pkg.types.take (tid - 1)).map (fun g => (primHead g).entryCount)).sum = 0) := by
  refine ⟨key_range_ok pkg tid h1 h2 hne, ?_⟩
  intro ht
  subst ht
  simp

/-- Witness for C1 at the end-to-end table and `tid = 2`. -/
theorem claim_C1_w :
    Arsc.key_range concretePkg 2 =
      .ok (((concretePkg.types.take 1).map (fun g => (primHead g).entryCount)).sum,
        ((concretePkg.types.take 1).map (fun g => (primHead g).entryCount)).sum
          + (primHead (concretePkg.types.getD 1 [])).entryCount) :=
  (claim_C1 concretePkg 2 (by decide) (by decide) (by decide)).1

/-- C2: on the spec's concrete table (package `0x7f` "app", types "string"
(2 entries) and "drawable" (1 entry), key pool `["app_name", "hello",
"icon"]`), the identifiers `0x7f010000`, `0x7f010001` and `0x7f020000`
split by the bit layout into the expected components and resolve to
`("app", "string", "app_name")`, `("app", "string", "hello")` and
`("app", "drawable", "icon")`. -/
theorem claim_C2 :
    decompose 0x7f010000 = (0x7f, 1, 0)
    ∧ decompose 0x7f010001 = (0x7f, 1, 1)
    ∧ decompose 0x7f020000 = (0x7f, 2, 0)
    ∧ Arsc.rid_to_name concreteArsc 0x7f 1 0 = .ok ("app", "string", "app_name")
    ∧ Arsc.rid_to_name concreteArsc 0x7f 1 1 = .ok ("app", "string", "hello")
    ∧ Arsc.rid_to_name concreteArsc 0x7f 2 0 = .ok ("app", "drawable", "icon") :=
  ⟨rfl, rfl, rfl, rfl, rfl, rfl⟩

/-- C3: within one package the ranges of consecutive valid type ids are
adjacent: `last` of type `tid` equals `first` of type `tid + 1`. -/
theorem claim_C3 (pkg : ResTable_package) (tid : Nat)
    (h1 : 1 ≤ tid) (h2 : tid + 1 ≤ pkg.types.length)
    (hne : ∀ i, i < tid + 1 → pkg.types.getD i [] ≠ []) :
    ∃ first1 last1 first2 last2,
      Arsc.key_range pkg tid = .ok (first1, last1)
      ∧ Arsc.key_range pkg (tid + 1) = .ok (first2, last2)
      ∧ last1 = first2 := by
  have hr1 := key_range_ok pkg tid h1 (by omega) (fun i hi => hne i (by omega))
  have hr2 := key_range_ok pkg (tid + 1) (by omega) h2 hne
  refine ⟨_, _, _, _, hr1, hr2, ?_⟩
  have hidx : pkg.types[tid - 1]? = some pkg.types[tid - 1] :=
    List.getElem?_eq_getElem (by omega)
  have hgd : pkg.types.getD (tid - 1) [] = pkg.types[tid - 1] := by
    rw [List.getD_eq_getElem?_getD, hidx, Option.getD_some]
  have hts : pkg.types.take ((tid + 1) - 1)
      = pkg.types.take (tid - 1) ++ [pkg.types[tid - 1]] := by
    rw [show (tid + 1) - 1 = (tid - 1) + 1 by omega, List.take_succ, hidx]
    rfl
  rw [hts, List.map_append, List.sum_append, hgd]
  simp

/-- Witness for C3 at the end-to-end table and `tid = 1`. -/
theorem claim_C3_w :
    ∃ first1 last1 first2 last2,
      Arsc.key_range concretePkg 1 = .ok (first1, last1)
      ∧ Arsc.key_range concretePkg 2 = .ok (first2, last2)
      ∧ last1 = first2 :=
  claim_C3 concretePkg 1 (by decide) (by decide) (by decide)

/-- Counterexample to C4 as stated: on the end-to-end table, resolving with
type id 0 fails with the `invalidTypeId` error raised by the explicit
`tid < 1` check ("Minimum ID of type is 1"), and resolving with type id 3
(above the pool length 2) fails with the type-spec `IndexError` raised by
`pkg.types[2]` — in neither case with the `TypeNotFound` kind (the
`KeyError` on the type-name dict). -/
theorem claim_C4_cex :
    Arsc.rid_to_name concreteArsc 0x7f 0 0 = .error (.invalidTypeId 0)
    ∧ errIsTypeNotFound (Arsc.rid_to_name concreteArsc 0x7f 0 0) = false
    ∧ Arsc.rid_to_name concreteArsc 0x7f 3 0 = .error .typeSpecIndexError
    ∧ errIsTypeNotFound (Arsc.rid_to_name concreteArsc 0x7f 3 0) = false :=
  ⟨rfl, rfl, rfl, rfl⟩

/-- C4 (amended): with the table decodable up to the type table, resolution
never returns a triple for an invalid type id, but the error kinds differ
from the claim: type id 0 fails with the invalid-type error; a type id
greater than the number of type-spec groups fails with the type-spec
`IndexError`; a type id surviving key computation but exceeding the
type-name pool length fails with `TypeNotFound`. -/
theorem claim_C4 (self : Arsc) (pid tid kid : Nat) (pkg : ResTable_package)
    (P T : List (Nat × String))
    (hP : Arsc.get_packages self = .ok P)
    (hpkg : Arsc.pid_to_package self pid = .ok pkg)
    (hT : Arsc.get_package_types pkg = .ok T) :
    (tid = 0 → Arsc.rid_to_name self pid tid kid = .error (.invalidTypeId 0))
    ∧ (pkg.types.length < tid →
      Arsc.rid_to_name self pid tid kid = .error .typeSpecIndexError)
    ∧ (∀ K, Arsc.get_package_type_keys self pid tid = .ok K →
      pkg.typeStrings.strings.length < tid →
      Arsc.rid_to_name self pid tid kid = .error (.typeNotFound tid)) := by
  refine ⟨?_, ?_, ?_⟩
  · intro h0
    subst h0
    have hK : Arsc.get_package_type_keys self pid 0 = .error (.invalidTypeId 0) := by
      simp [Arsc.get_package_type_keys]
    exact rid_to_name_keys_err self pid 0 kid pkg P T _ hP hpkg hT hK
  · intro hgt
    exact rid_to_name_keys_err self pid tid kid pkg P T _ hP hpkg hT
      (get_package_type_keys_err_of_gt self pid tid pkg hpkg hgt)
  · intro K hK hgt
    rcases pyDictGet_pid self pid pkg P hP hpkg with ⟨pname, hpn⟩
    rcases build_types_inv pkg.typeStrings.header.flags pkg.typeStrings.strings 0 T hT
      with ⟨ss, hss, hTe⟩
    have hlen : ss.length = pkg.typeStrings.strings.length := by
      have := congrArg List.length hss
      simpa using this.symm
    have htn : pyDictGet tid T = none := by
      rw [hTe, pyDictGet_enumFrom, if_pos (by omega),
        List.getElem?_eq_none (by omega)]
    exact rid_to_name_type_err self pid tid kid pkg P T K pname hP hpkg hT hK hpn htn

/-- Witness for C4 (amended) at the end-to-end table and type id 0. -/
theorem claim_C4_w :
    Arsc.rid_to_name concreteArsc 0x7f 0 3 = .error (.invalidTypeId 0) :=
  (claim_C4 concreteArsc 0x7f 0 3 concretePkg [(0x7f, "app")]
    [(1, "string"), (2, "drawable")] rfl rfl rfl).1 rfl

/-- C5: for a resolvable package and type id, an entry id at or beyond the
number of keys in the computed range fails with `KeyIndexOutOfRange`, and an
entry id strictly inside yields the decoded slice element at position
`entry_id` counted from 0 within the slice. -/
theorem claim_C5 (self : Arsc) (pid tid kid : Nat) (pkg : ResTable_package)
    (P T : List (Nat × String)) (pname tname : String)
    (first last : Nat) (ss : List String)
    (hP : Arsc.get_packages self = .ok P)
    (hpkg : Arsc.pid_to_package self pid = .ok pkg)
    (hT : Arsc.get_package_types pkg = .ok T)
    (hpn : pyDictGet pid P = some pname)
    (htn : pyDictGet tid T = some tname)
    (h1 : 1 ≤ tid)
    (hr : Arsc.key_range pkg tid = .ok (first, last))
    (hs : ((pkg.keyStrings.strings.drop first).take (last - first)).map
        (Arsc.decodePoolString pkg.keyStrings.header.flags) = ss.map some) :
    (ss.length ≤ kid →
      Arsc.rid_to_name self pid tid kid = .error (.keyIndexOutOfRange kid))
    ∧ (kid < ss.length →
      Arsc.rid_to_name self pid tid kid = .ok (pname, tname, ss.getD kid "")) := by
  have hK := get_package_type_keys_eq self pid tid pkg first last ss h1 hpkg hr hs
  have hmain := rid_to_name_eq self pid tid kid pkg P T (enumFrom 0 ss) pname tname
    hP hpkg hT hK hpn htn
  constructor
  · intro hge
    rw [hmain, pyDictGet_enumFrom, if_pos (by omega),
      List.getElem?_eq_none (by omega)]
  · intro hlt
    have hget : ss[kid - 0]? = some ss[kid] := by
      rw [show kid - 0 = kid by omega]
      exact List.getElem?_eq_getElem hlt
    have hgd : ss.getD kid "" = ss[kid] := by
      rw [List.getD_eq_getElem?_getD, List.getElem?_eq_getElem hlt, Option.getD_some]
    rw [hmain, pyDictGet_enumFrom, if_pos (by omega), hget, hgd]

/-- Witness for C5 at the end-to-end table, type id 1 and entry id 1. -/
theorem claim_C5_w :
    Arsc.rid_to_name concreteArsc 0x7f 1 1 = .ok ("app", "string", "hello") :=
  (claim_C5 concreteArsc 0x7f 1 1 concretePkg [(0x7f, "app")]
    [(1, "string"), (2, "drawable")] "app" "string" 0 2 ["app_name", "hello"]
    rfl rfl rfl rfl rfl (by decide) rfl rfl).2 (by decide)

/-- Counterexample to C6 as stated: in a table whose (only) package has a
name buffer with no aligned double-NUL, resolving an absent package id fails
with the NUL-terminator error from decoding that other package's name — not
with `PackageNotFound` — because `rid_to_name` calls `get_packages` first. -/
theorem claim_C6_cex :
    Arsc.rid_to_name badNameArsc 5 1 0 = .error .nullTerminatorNotFound
    ∧ errIsPackageNotFound (Arsc.rid_to_name badNameArsc 5 1 0) = false :=
  ⟨rfl, rfl⟩

/-- C6 (amended): provided every package name in the table decodes (so
`get_packages` succeeds), resolving any identifier whose package id is not
the header id of any package fails with `PackageNotFound`, with no partial
result. -/
theorem claim_C6 (self : Arsc) (pid tid kid : Nat) (P : List (Nat × String))
    (hP : Arsc.get_packages self = .ok P)
    (habs : ∀ pkg ∈ self.arsc.packages, pkg.header.id ≠ pid) :
    Arsc.rid_to_name self pid tid kid = .error (.packageNotFound pid) :=
  rid_to_name_pkg_err self pid tid kid P _ hP (pid_to_package_absent self pid habs)

/-- Witness for C6 (amended) at the end-to-end table and package id 5. -/
theorem claim_C6_w :
    Arsc.rid_to_name concreteArsc 5 1 0 = .error (.packageNotFound 5) :=
  claim_C6 concreteArsc 5 1 0 [(0x7f, "app")] rfl (by decide)

/-- C7: when every entry of the package's type-name pool decodes (per the
pool's declared flag) to the list `ss`, `get_package_types` returns exactly
the bindings `i + 1 ↦ ss[i]`: its key set is `1 .. n` for `n` the pool
length, and looking up `i + 1` yields the decoded `i`-th entry. -/
theorem claim_C7 (pkg : ResTable_package) (ss : List String)
    (hs : pkg.typeStrings.strings.map
        (Arsc.decodePoolString pkg.typeStrings.header.flags) = ss.map some) :
    Arsc.get_package_types pkg = .ok (enumFrom 1 ss)
    ∧ ss.length = pkg.typeStrings.strings.length
    ∧ (enumFrom 1 ss).map Prod.fst = (List.range ss.length).map (fun i => i + 1)
    ∧ (∀ i, i < ss.length → pyDictGet (i + 1) (enumFrom 1 ss) = ss[i]?) := by
  refine ⟨?_, ?_, ?_, ?_⟩
  · have := build_types_eq pkg.typeStrings.header.flags pkg.typeStrings.strings 0 ss hs
    simpa [Arsc.get_package_types] using this
  · have := congrArg List.length hs
    simpa using this.symm
  · rw [enumFrom_map_fst]
    apply List.map_congr_left
    intro a _
    omega
  · intro i hi
    rw [pyDictGet_enumFrom, if_pos (by omega), show i + 1 - 1 = i by omega]

/-- Witness for C7 at the end-to-end table. -/
theorem claim_C7_w :
    Arsc.get_package_types concretePkg = .ok (enumFrom 1 ["string", "drawable"]) :=
  (claim_C7 concretePkg ["string", "drawable"] rfl).1

/-- Counterexample to C8 as stated: on a UTF-16 pool entry whose payload
starts with a big-endian byte-order mark, the source decodes `"a"` (Python's
`utf-16` codec honours the mark), while decoding the stripped bytes as pure
little-endian UTF-16 yields a different string. -/
theorem claim_C8_cex :
    Arsc.decodePoolString 0 bomEntry = some "a"
    ∧ (utf16leDecode ((bomEntry.drop 2).dropLast.dropLast)).map
        (fun cs => String.mk (stripNul cs))
      = some (String.mk [Char.ofNat 0xFFFE, Char.ofNat 0x6100])
    ∧ ("a" : String) ≠ String.mk [Char.ofNat 0xFFFE, Char.ofNat 0x6100] :=
  ⟨rfl, rfl, by decide⟩

/-- C8 (amended): pooled string decoding strips exactly the first 2 bytes
and the last 1 byte (UTF-8 flag) or last 2 bytes (otherwise), decodes the
remainder — as UTF-8, or as UTF-16 honouring an initial byte-order mark and
defaulting to little-endian — strips residual NULs, and fails on bytes that
are not valid text, in particular on an odd remaining byte count in the
UTF-16 path. -/
theorem claim_C8 (flags : Nat) (t : List Nat) :
    (flags = UTF8_FLAG →
      Arsc.decodePoolString flags t
        = (utf8Decode ((t.take (t.length - 1)).drop 2)).map
            (fun cs => String.mk (stripNul cs)))
    ∧ (flags ≠ UTF8_FLAG →
      Arsc.decodePoolString flags t
        = (pyUtf16Decode ((t.take (t.length - 2)).drop 2)).map
            (fun cs => String.mk (stripNul cs)))
    ∧ (flags ≠ UTF8_FLAG → ¬ 2 ∣ ((t.drop 2).dropLast.dropLast).length →
      Arsc.decodePoolString flags t = none) := by
  refine ⟨?_, ?_, ?_⟩
  · intro h
    simp only [Arsc.decodePoolString]
    rw [if_pos h, dropLast_drop_two]
  · intro h
    simp only [Arsc.decodePoolString]
    rw [if_neg h, dropLast_two_drop_two]
  · intro h hodd
    simp only [Arsc.decodePoolString]
    rw [if_neg h, pyUtf16Decode_odd _ hodd]
    rfl

/-- Witness for C8 (amended): an entry leaving an odd payload fails. -/
theorem claim_C8_w : Arsc.decodePoolString 0 [0, 0, 1, 2, 3, 0, 0] = none :=
  (claim_C8 0 [0, 0, 1, 2, 3, 0, 0]).2.2 (by decide) (by decide)

/-- C9: `utf16_to_str` decodes exactly the prefix before the first two-byte
NUL pair at an even offset (the found index is aligned, holds a NUL pair,
and no earlier aligned offset does); a buffer with no aligned NUL pair fails
with the NUL-terminator error; and resolution of any identifier fails
whenever any package of the table has such a name buffer, because
`get_packages` decodes every package name. -/
theorem claim_C9 :
    (∀ buf i, Arsc.find_null_utf16 buf = some i →
      2 ∣ i ∧ alignedNulAt buf i
      ∧ (∀ j, 2 ∣ j → j < i → ¬ alignedNulAt buf j)
      ∧ Arsc.utf16_to_str buf
          = (match pyUtf16Decode (buf.take i) with
             | none => Except.error ArscError.decodeError
             | some cs => Except.ok (String.mk cs)))
    ∧ (∀ buf : List Nat, (∀ j, 2 ∣ j → ¬ alignedNulAt buf j) →
      Arsc.utf16_to_str buf = .error .nullTerminatorNotFound)
    ∧ (∀ (self : Arsc) (pid tid kid : Nat),
      (∃ pkg ∈ self.arsc.packages, Arsc.find_null_utf16 pkg.header.name = none) →
      ∃ e, Arsc.rid_to_name self pid tid kid = .error e) := by
  refine ⟨?_, ?_, ?_⟩
  · intro buf i h
    rcases find_null_sound buf i h with ⟨hd, hn⟩
    refine ⟨hd, hn, find_null_first buf i h, ?_⟩
    simp only [Arsc.utf16_to_str, h]
    cases pyUtf16Decode (List.take i buf) <;> rfl
  · intro buf h
    simp only [Arsc.utf16_to_str, find_null_none buf h, throwEq]
  · intro self pid tid kid hex
    rcases get_packages_list_err self.arsc.packages hex with ⟨e, he⟩
    exact ⟨e, rid_to_name_packages_err self pid tid kid e he⟩

/-- Witness for C9: the "app" name buffer terminates at offset 6. -/
theorem claim_C9_w :
    Arsc.utf16_to_str [0x61, 0, 0x70, 0, 0x70, 0, 0, 0]
      = (match pyUtf16Decode ([0x61, 0, 0x70, 0, 0x70, 0, 0, 0].take 6) with
         | none => Except.error ArscError.decodeError
         | some cs => Except.ok (String.mk cs)) :=
  (claim_C9.1 [0x61, 0, 0x70, 0, 0x70, 0, 0, 0] 6 rfl).2.2.2

/-- C10: for a valid type id whose declared range `[first, last)` may
overrun the key pool, `get_package_type_keys` does not fail at the slice:
the slice is clamped to the pool bounds, and (when every slice element
decodes) the returned dict's key set is exactly `0 .. m-1` for `m` the
clamped slice length `min last poolLen - min first poolLen`. -/
theorem claim_C10 (self : Arsc) (pid tid : Nat) (pkg : ResTable_package)
    (first last : Nat) (ss : List String)
    (hpkg : Arsc.pid_to_package self pid = .ok pkg)
    (h1 : 1 ≤ tid) (h2 : tid ≤ pkg.types.length)
    (hne : ∀ i, i < tid → pkg.types.getD i [] ≠ [])
    (hr : Arsc.key_range pkg tid = .ok (first, last))
    (hs : ((pkg.keyStrings.strings.drop first).take (last - first)).map
        (Arsc.decodePoolString pkg.keyStrings.header.flags) = ss.map some) :
    Arsc.get_package_type_keys self pid tid = .ok (enumFrom 0 ss)
    ∧ (enumFrom 0 ss).map Prod.fst = List.range ss.length
    ∧ ss.length
        = min last pkg.keyStrings.strings.length
          - min first pkg.keyStrings.strings.length := by
  have hK := get_package_type_keys_eq self pid tid pkg first last ss h1 hpkg hr hs
  refine ⟨hK, ?_, ?_⟩
  · rw [enumFrom_map_fst]
    simp
  · have hlen : ss.length
        = ((pkg.keyStrings.strings.drop first).take (last - first)).length := by
      have := congrArg List.length hs
      simpa using this.symm
    have hfl := key_range_le pkg tid first last hr
    rw [hlen, List.length_take, List.length_drop]
    omega

/-- Witness for C10 at the overrun table: declared count 5, pool length 3. -/
theorem claim_C10_w :
    Arsc.get_package_type_keys overArsc 2 1 = .ok (enumFrom 0 ["a", "b", "c"])
    ∧ (enumFrom 0 ["a", "b", "c"]).map Prod.fst = List.range 3
    ∧ (3 : Nat) = min 5 3 - min 0 3 :=
  claim_C10 overArsc 2 1 (overArsc.arsc.packages.getD 0 concretePkg) 0 5
    ["a", "b", "c"] rfl (by decide) (by decide) (by decide) rfl rfl

end Arscutils
